import Mathlib

/-!
Formal model of the literature-screening pipeline in `筛选文献.py`.

Python strings are modelled as `List Char`.  The pure text manipulations of
the source (`str.split('\n')`, `'\n'.join`, truthiness of `str.strip()`,
`str.replace`, slicing) are embedded as executable Lean functions below, and
the three-node LangGraph pipeline is embedded as a graph walk applying each
node's partial state update in turn.  The model calls made by `llm.invoke`
are abstracted by an oracle `llm : List Char → List Char` mapping the prompt
payload to the model's textual response; every payload handed to the oracle
is collected so that theorems can speak about what was actually sent.
-/

set_option autoImplicit false

namespace DrugPaper

/-- Models Python whitespace for `str.strip()` truthiness (ASCII whitespace
characters; the Unicode space characters Python also strips never matter for
the properties proved here and are omitted). -/
def pySpace (c : Char) : Bool :=
  c == ' ' || c == '\t' || c == '\n' || c == '\r' || c == '\x0B' || c == '\x0C'

/-- Truthiness of `line.strip()` in Python: the line has at least one
non-whitespace character. -/
def pyTruthy (l : List Char) : Bool :=
  l.any (fun c => !(pySpace c))

/-- Models Python `text.split('\n')`.  In particular `pySplit [] = [[]]`,
matching `"".split('\n') == ['']`. -/
def pySplit : List Char → List (List Char)
  | [] => [[]]
  | c :: cs =>
    if c = '\n' then [] :: pySplit cs
    else
      match pySplit cs with
      | [] => [[c]]
      | l :: ls => (c :: l) :: ls

/-- Models Python `'\n'.join(ls)`. -/
def joinNl : List (List Char) → List Char
  | [] => []
  | [l] => l
  | l :: m :: ms => l ++ '\n' :: joinNl (m :: ms)

/-- The Cleaning Step of `pdf_loader_agent`:
`"\n".join([line for line in text.split('\n') if line.strip()])`. -/
def clean_text (text : List Char) : List Char :=
  joinNl ((pySplit text).filter pyTruthy)

/-- The lines of a document: an empty document has no lines, a nonempty one
splits at newlines (this matches Python `str.splitlines` on the strings at
hand, none of which is newline-terminated). -/
def linesOf (s : List Char) : List (List Char) :=
  if s = [] then [] else pySplit s

/-- Models Python `s.replace('', sub)`: the substitute is inserted before
every character and at the end. -/
def replEmptyPat (sub : List Char) : List Char → List Char
  | [] => sub
  | c :: cs => sub ++ c :: replEmptyPat sub cs

/-- Models Python `s.replace(pat, sub)`: every non-overlapping occurrence of
`pat` in `s`, scanning left to right, is replaced by `sub`. -/
def pyReplace (s pat sub : List Char) : List Char :=
  match pat, s with
  | [], _ => replEmptyPat sub s
  | _ :: _, [] => []
  | p :: ps, c :: cs =>
    if (p :: ps).isPrefixOf (c :: cs) then
      sub ++ pyReplace ((c :: cs).drop (p :: ps).length) (p :: ps) sub
    else
      c :: pyReplace cs (p :: ps) sub
termination_by s.length
decreasing_by
  · simp only [List.length_drop, List.length_cons]
    omega
  · simp only [List.length_cons]
    omega

/-- Literal text of the extraction prompt before the criteria slot. -/
def fHead : List Char :=
  ("\n        你是一名专业的药学数据分析师。\n        任务：请根据以下【筛选标准】，从【文献内容】中提取精确的数据。\n        \n        【筛选标准】: \n        ").data

/-- Literal text of the extraction prompt between the criteria slot and the
document-excerpt slot. -/
def fMid : List Char :=
  ("\n        \n        【文献内容】(部分展示):\n        ").data

/-- The truncation note appended to the 30,000-character excerpt in the
extraction prompt template; it is also part of the pattern removed by the
subsequent `replace`. -/
def truncNote : List Char :=
  (" ... (内容过长已截断，请基于全量理解)").data

/-- Literal tail of the extraction prompt (the requirement list). -/
def fTail : List Char :=
  ("\n        \n        要求：\n        1. 只输出提取到的数据结果，可以是表格形式或列表形式。\n        2. 如果文中未提及某项标准，请明确标注“未找到”。\n        3. 不要输出无关的寒暄语。\n        ").data

/-- The f-string `prompt` built in `filter_agent`: the 30,000-character slice
of the document plus the truncation note sits between `fMid` and `fTail`. -/
def filterTemplate (criteria raw : List Char) : List Char :=
  fHead ++ criteria ++ fMid ++ (raw.take 30000 ++ truncNote) ++ fTail

/-- The `real_msg` actually sent by `filter_agent`:
`prompt.replace(raw[:30000] + note, raw)`. -/
def filterPayload (criteria raw : List Char) : List Char :=
  pyReplace (filterTemplate criteria raw) (raw.take 30000 ++ truncNote) raw

/-- Literal head of the verification prompt, up to the criteria slot. -/
def mHead : List Char :=
  ("\n        你是一名严格的科研质量监督员。\n        \n        你的任务是审核上一步的【提取结果】是否忠实于【文献原文】以及是否符合【筛选标准】。\n        \n        【用户标准】: ").data

/-- Literal text of the verification prompt between the criteria slot and the
extracted-data slot. -/
def mMid1 : List Char :=
  ("\n        【提取结果】: ").data

/-- Literal text of the verification prompt between the extracted-data slot
and the document-excerpt slot. -/
def mMid2 : List Char :=
  ("\n        【文献原文片段】: ").data

/-- Literal tail of the verification prompt (after the excerpt). -/
def mTail : List Char :=
  ("...\n        \n        请输出一份简短的【质量监控报告】：\n        1. 准确率评分 (0-100)。\n        2. 是否存在幻觉或遗漏？\n        3. 最终修正建议（如有）。\n        ").data

/-- The excerpt `state["raw_content"][:5000]` embedded in the verification
prompt. -/
def monitorExcerpt (raw : List Char) : List Char :=
  raw.take 5000

/-- The prompt sent by `monitor_agent`. -/
def monitorPayload (criteria extracted raw : List Char) : List Char :=
  mHead ++ criteria ++ mMid1 ++ extracted ++ mMid2 ++ monitorExcerpt raw ++ mTail

/-- An uploaded PDF file as the pipeline observes it: a file name, and either
the list of per-page texts `page.extract_text()` yields (a page may yield the
empty string) or the message of the exception `pypdf` raises. -/
structure PDFFile where
  name : List Char
  parse : Except (List Char) (List (List Char))

/-- Models `extract_text_from_pdf`: concatenate each non-empty page text
followed by a newline; on any exception, return `"Error reading PDF: " + e`
instead of raising. -/
def extract_text_from_pdf (f : PDFFile) : List Char :=
  match f.parse with
  | .error e => ("Error reading PDF: ").data ++ e
  | .ok pages =>
    pages.foldl (fun text content => if content.isEmpty then text else text ++ content ++ ['\n']) []

/-- The five fields of `LiteratureState`. -/
inductive Field where
  | file_name
  | raw_content
  | screening_criteria
  | extracted_data
  | quality_report
deriving DecidableEq, Repr

/-- The shared pipeline state threaded through the LangGraph workflow. -/
structure LiteratureState where
  file_name : List Char
  raw_content : List Char
  screening_criteria : List Char
  extracted_data : List Char
  quality_report : List Char
deriving DecidableEq, Repr

/-- Write one field of the state. -/
def setField (s : LiteratureState) : Field → List Char → LiteratureState
  | .file_name, v => { s with file_name := v }
  | .raw_content, v => { s with raw_content := v }
  | .screening_criteria, v => { s with screening_criteria := v }
  | .extracted_data, v => { s with extracted_data := v }
  | .quality_report, v => { s with quality_report := v }

/-- Merge a node's partial update (a dict of field writes) into the state,
as LangGraph does with the dict a node returns. -/
def applyUpdate (s : LiteratureState) (u : List (Field × List Char)) : LiteratureState :=
  u.foldl (fun s fv => setField s fv.1 fv.2) s

/-- A node returns its partial state update together with the list of
payloads it sent to the model (`llm.invoke` arguments). -/
def pdf_loader_agent (s : LiteratureState) :
    List (Field × List Char) × List (List Char) :=
  ([(.raw_content, clean_text s.raw_content)], [])

/-- `filter_agent`: one model call on `real_msg`, result stored in
`extracted_data`. -/
def filter_agent (llm : List Char → List Char) (s : LiteratureState) :
    List (Field × List Char) × List (List Char) :=
  ([(.extracted_data, llm (filterPayload s.screening_criteria s.raw_content))],
   [filterPayload s.screening_criteria s.raw_content])

/-- `monitor_agent`: one model call on its prompt, result stored in
`quality_report`. -/
def monitor_agent (llm : List Char → List Char) (s : LiteratureState) :
    List (Field × List Char) × List (List Char) :=
  ([(.quality_report, llm (monitorPayload s.screening_criteria s.extracted_data s.raw_content))],
   [monitorPayload s.screening_criteria s.extracted_data s.raw_content])

/-- Nodes of the workflow graph, including the START and END markers. -/
inductive GNode where
  | START
  | PDF_Loader
  | Filter
  | Monitor
  | END
deriving DecidableEq, Repr

/-- The four `add_edge` calls of the source. -/
def edges : List (GNode × GNode) :=
  [(.START, .PDF_Loader), (.PDF_Loader, .Filter), (.Filter, .Monitor), (.Monitor, .END)]

/-- Successor of a node along the graph's edges. -/
def nextNode (n : GNode) : Option GNode :=
  (edges.find? (fun e => e.1 == n)).map (fun e => e.2)

/-- Walk the graph from a node, collecting the processing nodes visited, with
fuel bounding the walk by the number of edges. -/
def walk : Nat → GNode → List GNode
  | 0, _ => []
  | fuel + 1, n =>
    match nextNode n with
    | none => []
    | some .END => []
    | some m => m :: walk fuel m

/-- The node execution order of the compiled workflow. -/
def execOrder : List GNode :=
  walk edges.length .START

/-- The node function attached to each graph node (START and END carry no
function and are never executed). -/
def stepFn (llm : List Char → List Char) :
    GNode → LiteratureState → List (Field × List Char) × List (List Char)
  | .PDF_Loader => pdf_loader_agent
  | .Filter => filter_agent llm
  | .Monitor => monitor_agent llm
  | _ => fun _ => ([], [])

/-- Execute the graph on an initial state, collecting the per-node updates
and the model-call payloads in execution order. -/
def runGraph (llm : List Char → List Char) (s0 : LiteratureState) :
    LiteratureState × List (List (Field × List Char)) × List (List Char) :=
  execOrder.foldl
    (fun acc n =>
      let u := stepFn llm n acc.1
      (applyUpdate acc.1 u.1, acc.2.1 ++ [u.1], acc.2.2 ++ u.2))
    (s0, [], [])

/-- `process_document`: read the PDF, build the initial state, run the
workflow; returns the final state together with the list of model-call
payloads made during the run. -/
def process_document (llm : List Char → List Char) (file : PDFFile) (criteria : List Char) :
    LiteratureState × List (List Char) :=
  let raw_text := extract_text_from_pdf file
  let r := runGraph llm ⟨file.name, raw_text, criteria, [], []⟩
  (r.1, r.2.2)

/-- The sequence of fields written by the nodes during one run, in order. -/
def writeTrace (llm : List Char → List Char) (file : PDFFile) (criteria : List Char) :
    List Field :=
  ((runGraph llm ⟨file.name, extract_text_from_pdf file, criteria, [], []⟩).2.1.flatten).map Prod.fst

/-- Outcome of pressing the analyse button. -/
inductive UIOutcome where
  | errorMsg : List Char → UIOutcome
  | warnMsg : List Char → UIOutcome
  | ran : List LiteratureState → UIOutcome

/-- The `st.error` message for a missing API key. -/
def apiKeyMissingMsg : List Char :=
  ("请先在左侧侧边栏输入 API Key！").data

/-- The `st.warning` message for an empty upload list. -/
def noFilesMsg : List Char :=
  ("请至少上传一个 PDF 文件。").data

/-- The `st.button` click handler: reject a missing API key, then an empty
file list, otherwise process every uploaded file in order.  Returns the UI
outcome and the concatenated list of model-call payloads made. -/
def runButton (api_key : List Char) (files : List PDFFile) (criteria : List Char)
    (llm : List Char → List Char) : UIOutcome × List (List Char) :=
  if api_key.isEmpty then (.errorMsg apiKeyMissingMsg, [])
  else if files.isEmpty then (.warnMsg noFilesMsg, [])
  else
    let runs := files.map (fun f => process_document llm f criteria)
    (.ran (runs.map (fun r => r.1)), (runs.map (fun r => r.2)).flatten)

/-- A one-page PDF whose page text contains a blank line: cleaning changes
the text, separating the cleaned `raw_content` from the pre-cleaning raw
text. -/
def pdfCex : PDFFile :=
  ⟨['d'], .ok [['a', '\n', '\n', 'b']]⟩

/-- A readable two-page PDF with page texts `"A"` and `"B"`. -/
def pdfTwoPages : PDFFile :=
  ⟨['d'], .ok [['A'], ['B']]⟩

/-- Modelled from the claim's words, for comparison with the source's
`extract_text_from_pdf`: the non-empty page texts joined with newline
separators (a newline strictly between consecutive page texts). -/
def claimedPageJoin (pages : List (List Char)) : List Char :=
  joinNl (pages.filter (fun p => !p.isEmpty))

theorem pySplit_ne_nil (s : List Char) : pySplit s ≠ [] := by
  cases s with
  | nil => simp [pySplit]
  | cons c cs =>
    simp only [pySplit]
    split
    · simp
    · split <;> simp

theorem mem_pySplit_no_nl (s : List Char) : ∀ l ∈ pySplit s, '\n' ∉ l := by
  induction s with
  | nil =>
    intro l hl
    simp [pySplit] at hl
    simp [hl]
  | cons c cs ih =>
    intro l hl
    by_cases hc : c = '\n'
    · rw [pySplit, if_pos hc] at hl
      rcases List.mem_cons.mp hl with h | h
      · simp [h]
      · exact ih l h
    · rw [pySplit, if_neg hc] at hl
      cases hsp : pySplit cs with
      | nil => exact absurd hsp (pySplit_ne_nil cs)
      | cons m ms =>
        rw [hsp] at hl
        rcases List.mem_cons.mp hl with h | h
        · subst h
          intro hmem
          rcases List.mem_cons.mp hmem with h | h
          · exact hc h.symm
          · exact ih m (hsp ▸ List.mem_cons_self m ms) h
        · exact ih l (hsp ▸ List.mem_cons_of_mem m h)

theorem pySplit_append (l : List Char) (hl : '\n' ∉ l) :
    ∀ (s h : List Char) (t : List (List Char)),
      pySplit s = h :: t → pySplit (l ++ s) = (l ++ h) :: t := by
  induction l with
  | nil => intro s h t hs; simpa using hs
  | cons c l ih =>
    intro s h t hs
    have hc : c ≠ '\n' := fun hcn => hl (hcn ▸ List.mem_cons_self c l)
    have hl' : '\n' ∉ l := fun hm => hl (List.mem_cons_of_mem c hm)
    have : pySplit (l ++ s) = (l ++ h) :: t := ih hl' s h t hs
    simp only [List.cons_append, pySplit, if_neg hc, List.append_eq, this]

theorem pySplit_no_nl (l : List Char) (hl : '\n' ∉ l) : pySplit l = [l] := by
  have := pySplit_append l hl [] [] [] rfl
  simpa using this

theorem pySplit_joinNl (ls : List (List Char)) (hne : ls ≠ [])
    (hnl : ∀ l ∈ ls, '\n' ∉ l) : pySplit (joinNl ls) = ls := by
  induction ls with
  | nil => exact absurd rfl hne
  | cons l ms ih =>
    cases ms with
    | nil =>
      simp only [joinNl]
      exact pySplit_no_nl l (hnl l (List.mem_cons_self l []))
    | cons m ms =>
      have hrest : pySplit (joinNl (m :: ms)) = m :: ms :=
        ih (List.cons_ne_nil m ms) (fun x hx => hnl x (List.mem_cons_of_mem l hx))
      have hstep : pySplit ('\n' :: joinNl (m :: ms)) = [] :: m :: ms := by
        rw [pySplit, if_pos rfl, hrest]
      have hlnl : '\n' ∉ l := hnl l (List.mem_cons_self l (m :: ms))
      have := pySplit_append l hlnl ('\n' :: joinNl (m :: ms)) [] (m :: ms) hstep
      simpa [joinNl] using this

theorem pyTruthy_ne_nil (l : List Char) (h : pyTruthy l = true) : l ≠ [] := by
  intro hl
  subst hl
  simp [pyTruthy] at h

theorem joinNl_ne_nil (l : List Char) (ls : List (List Char)) (hl : l ≠ []) :
    joinNl (l :: ls) ≠ [] := by
  cases ls with
  | nil => simpa [joinNl] using hl
  | cons m ms => simp [joinNl]

theorem linesOf_clean_text (text : List Char) :
    linesOf (clean_text text) = (pySplit text).filter pyTruthy := by
  cases hf : (pySplit text).filter pyTruthy with
  | nil => simp [clean_text, hf, linesOf, joinNl]
  | cons l ls =>
    have hmem : ∀ x ∈ l :: ls, pyTruthy x = true := by
      intro x hx
      exact List.of_mem_filter (hf ▸ hx)
    have hnl : ∀ x ∈ l :: ls, '\n' ∉ x := by
      intro x hx
      exact mem_pySplit_no_nl text x (List.mem_of_mem_filter (hf ▸ hx))
    have hlne : l ≠ [] := pyTruthy_ne_nil l (hmem l (List.mem_cons_self l ls))
    have hjoin : joinNl (l :: ls) ≠ [] := joinNl_ne_nil l ls hlne
    have : clean_text text = joinNl (l :: ls) := by rw [clean_text, hf]
    rw [this, linesOf, if_neg hjoin]
    exact pySplit_joinNl (l :: ls) (List.cons_ne_nil l ls) hnl

/-- C2: the Cleaning Step output is the input's lines with every empty or
whitespace-only line dropped, joined by newlines; the retained lines are an
order-preserving, element-wise unmodified sublist of the input's lines, and
every line of the output has a non-whitespace character (so the output has no
empty or whitespace-only line). -/
theorem cleaning_step_correct (text : List Char) :
    clean_text text = joinNl ((pySplit text).filter pyTruthy)
      ∧ List.Sublist ((pySplit text).filter pyTruthy) (pySplit text)
      ∧ linesOf (clean_text text) = (pySplit text).filter pyTruthy
      ∧ ∀ l ∈ linesOf (clean_text text), l ≠ [] ∧ ∃ c ∈ l, pySpace c = false := by
  refine ⟨rfl, List.filter_sublist _, linesOf_clean_text text, ?_⟩
  intro l hl
  rw [linesOf_clean_text text] at hl
  have ht : pyTruthy l = true := List.of_mem_filter hl
  refine ⟨pyTruthy_ne_nil l ht, ?_⟩
  rcases List.any_eq_true.mp ht with ⟨c, hc, hcn⟩
  exact ⟨c, hc, by simpa using hcn⟩

/-- C9: the Cleaning Step is idempotent — its output is a fixed point of the
blank-line-removal transformation. -/
theorem clean_text_idempotent (text : List Char) :
    clean_text (clean_text text) = clean_text text := by
  cases hf : (pySplit text).filter pyTruthy with
  | nil => simp [clean_text, hf, joinNl, pySplit, pyTruthy]
  | cons l ls =>
    have hlines : pySplit (clean_text text) = l :: ls := by
      have := linesOf_clean_text text
      rw [hf] at this
      have hmem : ∀ x ∈ l :: ls, pyTruthy x = true := by
        intro x hx
        exact List.of_mem_filter (hf ▸ hx)
      have hlne : l ≠ [] := pyTruthy_ne_nil l (hmem l (List.mem_cons_self l ls))
      have hclean : clean_text text = joinNl (l :: ls) := by rw [clean_text, hf]
      rw [hclean]
      refine pySplit_joinNl (l :: ls) (List.cons_ne_nil l ls) ?_
      intro x hx
      exact mem_pySplit_no_nl text x (List.mem_of_mem_filter (hf ▸ hx))
    have hmem : ∀ x ∈ l :: ls, pyTruthy x = true := by
      intro x hx
      exact List.of_mem_filter (hf ▸ hx)
    calc clean_text (clean_text text)
        = joinNl ((pySplit (clean_text text)).filter pyTruthy) := rfl
      _ = joinNl ((l :: ls).filter pyTruthy) := by rw [hlines]
      _ = joinNl (l :: ls) := by rw [List.filter_eq_self.mpr hmem]
      _ = clean_text text := by rw [clean_text, hf]

theorem isPrefixOf_append_self (l t : List Char) : l.isPrefixOf (l ++ t) = true := by
  induction l with
  | nil => simp [List.isPrefixOf]
  | cons c cs ih => simp [List.isPrefixOf, ih]

theorem pyReplace_cons_pos (p : Char) (ps sub : List Char) (c : Char) (cs : List Char)
    (h : (p :: ps).isPrefixOf (c :: cs) = true) :
    pyReplace (c :: cs) (p :: ps) sub
      = sub ++ pyReplace ((c :: cs).drop (p :: ps).length) (p :: ps) sub := by
  rw [pyReplace]
  simp [h]

theorem pyReplace_cons_neg (p : Char) (ps sub : List Char) (c : Char) (cs : List Char)
    (h : (p :: ps).isPrefixOf (c :: cs) = false) :
    pyReplace (c :: cs) (p :: ps) sub = c :: pyReplace cs (p :: ps) sub := by
  rw [pyReplace]
  simp [h]

theorem pyReplace_contains (pat sub : List Char) (hp : pat ≠ []) :
    ∀ a b : List Char, ∃ u v, pyReplace (a ++ (pat ++ b)) pat sub = u ++ sub ++ v := by
  obtain ⟨p, ps, rfl⟩ : ∃ p ps, pat = p :: ps := by
    cases pat with
    | nil => exact absurd rfl hp
    | cons p ps => exact ⟨p, ps, rfl⟩
  intro a
  induction a with
  | nil =>
    intro b
    have hpre : (p :: ps).isPrefixOf (p :: (ps ++ b)) = true := by
      have h := isPrefixOf_append_self (p :: ps) b
      simp only [List.cons_append] at h
      exact h
    refine ⟨[], pyReplace ((p :: (ps ++ b)).drop (p :: ps).length) (p :: ps) sub, ?_⟩
    rw [List.nil_append, List.cons_append, pyReplace_cons_pos p ps sub p (ps ++ b) hpre]
    simp
  | cons c a ih =>
    intro b
    have hshape : (c :: a) ++ ((p :: ps) ++ b) = c :: (a ++ ((p :: ps) ++ b)) := rfl
    rw [hshape]
    cases hpre : (p :: ps).isPrefixOf (c :: (a ++ ((p :: ps) ++ b))) with
    | true =>
      rw [pyReplace_cons_pos p ps sub c _ hpre]
      exact ⟨[], pyReplace ((c :: (a ++ ((p :: ps) ++ b))).drop (p :: ps).length) (p :: ps) sub, by simp⟩
    | false =>
      rw [pyReplace_cons_neg p ps sub c _ hpre]
      obtain ⟨u, v, huv⟩ := ih b
      exact ⟨c :: u, v, by rw [huv]; rfl⟩

theorem append_ne_nil_right (xs ys : List Char) (h : ys ≠ []) : xs ++ ys ≠ [] := by
  cases xs <;> simp_all

/-- C1: in every run, the first payload handed to the model is the
`filter_agent` message obtained by replacing the truncated excerpt of the
prompt template with the full cleaned text, and for every criteria string and
every raw string whatsoever that message contains the raw string in full as a
contiguous substring — the 30,000-character preview never limits the payload. -/
theorem extraction_receives_full_text (llm : List Char → List Char) (file : PDFFile)
    (criteria : List Char) :
    (process_document llm file criteria).2.head?
        = some (filterPayload criteria (clean_text (extract_text_from_pdf file)))
      ∧ ∀ c r : List Char, ∃ u v, filterPayload c r = u ++ r ++ v := by
  refine ⟨rfl, ?_⟩
  intro c r
  have hp : (r.take 30000 ++ truncNote) ≠ [] :=
    append_ne_nil_right _ _ (by decide)
  have hshape : filterTemplate c r
      = (fHead ++ c ++ fMid) ++ ((r.take 30000 ++ truncNote) ++ fTail) := by
    simp [filterTemplate, List.append_assoc]
  have h := pyReplace_contains (r.take 30000 ++ truncNote) r hp (fHead ++ c ++ fMid) fTail
  rw [filterPayload, hshape]
  exact h

/-- C3 (counterexample): for the document whose extracted raw text is
`"a\n\nb\n"`, the excerpt embedded in the verification prompt is `"a\nb"`,
which is not a prefix of the pre-cleaning raw text at all — the claim that
the excerpt is a prefix of (at most the first 5,000 characters of) the
original raw text fails; the run's second payload indeed carries that
excerpt. -/
theorem verification_excerpt_not_of_raw :
    extract_text_from_pdf pdfCex = ['a', '\n', '\n', 'b', '\n']
      ∧ monitorExcerpt (clean_text (extract_text_from_pdf pdfCex)) = ['a', '\n', 'b']
      ∧ (['a', '\n', 'b']).isPrefixOf (extract_text_from_pdf pdfCex) = false
      ∧ (process_document (fun _ => []) pdfCex []).2.getLast?
          = some (monitorPayload [] [] (clean_text (extract_text_from_pdf pdfCex))) :=
  ⟨by decide, by decide, by decide, rfl⟩

/-- C3 (amended): in every run the verification step's payload is built from
the cleaned text (the `raw_content` the Cleaning Step overwrote), and the
excerpt it embeds is exactly the first at-most-5,000 characters of that
cleaned text: at most 5,000 characters long and a prefix of the cleaned
text. -/
theorem verification_excerpt_of_cleaned (llm : List Char → List Char) (file : PDFFile)
    (criteria : List Char) :
    (process_document llm file criteria).2
        = [filterPayload criteria (clean_text (extract_text_from_pdf file)),
           monitorPayload criteria
             (llm (filterPayload criteria (clean_text (extract_text_from_pdf file))))
             (clean_text (extract_text_from_pdf file))]
      ∧ (∀ c e r : List Char, ∃ u v, monitorPayload c e r = u ++ monitorExcerpt r ++ v)
      ∧ (∀ r : List Char, (monitorExcerpt r).length ≤ 5000)
      ∧ (∀ r : List Char, monitorExcerpt r ++ r.drop 5000 = r) := by
  refine ⟨rfl, ?_, ?_, ?_⟩
  · intro c e r
    exact ⟨mHead ++ c ++ mMid1 ++ e ++ mMid2, mTail, by simp [monitorPayload, List.append_assoc]⟩
  · intro r
    exact List.length_take_le 5000 r
  · intro r
    exact List.take_append_drop 5000 r

/-- C4: the compiled graph executes the three nodes exactly once each, in the
order Cleaning, Extraction, Verification; the node writes, in run order, are
exactly rawContent (the overwrite by cleaning), then extractedData, then
qualityReport — each written by the nodes exactly once; and each node's
output is a function of only fields already written when it runs (the loader
of rawContent alone, the filter of rawContent and screeningCriteria, the
monitor of rawContent, screeningCriteria and extractedData — scrubbing every
other field leaves each node's behaviour unchanged). -/
theorem pipeline_fixed_order (llm : List Char → List Char) (file : PDFFile)
    (criteria : List Char) :
    execOrder = [GNode.PDF_Loader, GNode.Filter, GNode.Monitor]
      ∧ execOrder.count GNode.PDF_Loader = 1
      ∧ execOrder.count GNode.Filter = 1
      ∧ execOrder.count GNode.Monitor = 1
      ∧ writeTrace llm file criteria
          = [Field.raw_content, Field.extracted_data, Field.quality_report]
      ∧ (∀ s : LiteratureState,
          pdf_loader_agent s = pdf_loader_agent ⟨[], s.raw_content, [], [], []⟩)
      ∧ (∀ s : LiteratureState,
          filter_agent llm s = filter_agent llm ⟨[], s.raw_content, s.screening_criteria, [], []⟩)
      ∧ (∀ s : LiteratureState,
          monitor_agent llm s
            = monitor_agent llm ⟨[], s.raw_content, s.screening_criteria, s.extracted_data, []⟩) :=
  ⟨by decide, by decide, by decide, by decide, rfl,
   fun _ => rfl, fun _ => rfl, fun _ => rfl⟩

/-- C8: each node's merged update changes only its designated field — the
loader leaves everything but rawContent unchanged, the filter everything but
extractedData, the monitor everything but qualityReport — and the final state
of a run carries the fileName and screeningCriteria supplied at pipeline
start unchanged. -/
theorem step_frame_condition (llm : List Char → List Char) (file : PDFFile)
    (criteria : List Char) :
    (∀ s : LiteratureState,
        (applyUpdate s (pdf_loader_agent s).1).file_name = s.file_name
          ∧ (applyUpdate s (pdf_loader_agent s).1).screening_criteria = s.screening_criteria
          ∧ (applyUpdate s (pdf_loader_agent s).1).extracted_data = s.extracted_data
          ∧ (applyUpdate s (pdf_loader_agent s).1).quality_report = s.quality_report)
      ∧ (∀ s : LiteratureState,
          (applyUpdate s (filter_agent llm s).1).file_name = s.file_name
            ∧ (applyUpdate s (filter_agent llm s).1).raw_content = s.raw_content
            ∧ (applyUpdate s (filter_agent llm s).1).screening_criteria = s.screening_criteria
            ∧ (applyUpdate s (filter_agent llm s).1).quality_report = s.quality_report)
      ∧ (∀ s : LiteratureState,
          (applyUpdate s (monitor_agent llm s).1).file_name = s.file_name
            ∧ (applyUpdate s (monitor_agent llm s).1).raw_content = s.raw_content
            ∧ (applyUpdate s (monitor_agent llm s).1).screening_criteria = s.screening_criteria
            ∧ (applyUpdate s (monitor_agent llm s).1).extracted_data = s.extracted_data)
      ∧ (process_document llm file criteria).1.file_name = file.name
      ∧ (process_document llm file criteria).1.screening_criteria = criteria :=
  ⟨fun _ => ⟨rfl, rfl, rfl, rfl⟩,
   fun _ => ⟨rfl, rfl, rfl, rfl⟩,
   fun _ => ⟨rfl, rfl, rfl, rfl⟩,
   rfl, rfl⟩

theorem extract_fold (pages : List (List Char)) (acc : List Char) :
    pages.foldl (fun text content => if content.isEmpty then text else text ++ content ++ ['\n']) acc
      = acc ++ ((pages.filter (fun p => !p.isEmpty)).map (fun p => p ++ ['\n'])).flatten := by
  induction pages generalizing acc with
  | nil => simp
  | cons p ps ih =>
    rw [List.foldl_cons, ih]
    by_cases hp : p = []
    · subst hp
      simp [List.filter_cons]
    · have hp' : p.isEmpty = false := by simpa [List.isEmpty_iff] using hp
      simp [hp', List.filter_cons, List.append_assoc]

/-- C5 (counterexample): on a readable PDF with page texts `"A"` and `"B"`
the extractor returns `"A\nB\n"`, not the newline-separated concatenation
`"A\nB"` the claim describes — each page's text is newline-terminated, not
newline-separated. -/
theorem extractor_not_newline_separated :
    extract_text_from_pdf pdfTwoPages = ['A', '\n', 'B', '\n']
      ∧ claimedPageJoin [['A'], ['B']] = ['A', '\n', 'B']
      ∧ extract_text_from_pdf pdfTwoPages ≠ claimedPageJoin [['A'], ['B']] :=
  ⟨by decide, by decide, by decide⟩

/-- C5 (amended): the extractor never raises — for every readable PDF it
returns the concatenation, in page order, of each non-empty page text
followed by a newline, and on any failure it returns the human-readable
message `"Error reading PDF: " + e` in place of the document text. -/
theorem extractor_total_spec (name err : List Char) (pages : List (List Char)) :
    extract_text_from_pdf ⟨name, .ok pages⟩
        = ((pages.filter (fun p => !p.isEmpty)).map (fun p => p ++ ['\n'])).flatten
      ∧ extract_text_from_pdf ⟨name, .error err⟩ = ("Error reading PDF: ").data ++ err := by
  constructor
  · have h := extract_fold pages []
    simpa [extract_text_from_pdf] using h
  · rfl

/-- C6: an empty API key is rejected with the key-specific error message and
no pipeline run or model call happens; a nonempty key with an empty file list
is rejected with the distinct file-specific warning, again with no pipeline
run or model call. -/
theorem missing_config_guard (files : List PDFFile) (ch : Char) (key criteria : List Char)
    (llm : List Char → List Char) :
    runButton [] files criteria llm = (UIOutcome.errorMsg apiKeyMissingMsg, [])
      ∧ runButton (ch :: key) [] criteria llm = (UIOutcome.warnMsg noFilesMsg, [])
      ∧ apiKeyMissingMsg ≠ noFilesMsg :=
  ⟨rfl, rfl, by decide⟩

theorem flatten_len_two {α β : Type} (g : α → List β) (h : ∀ a, (g a).length = 2) :
    ∀ xs : List α, ((xs.map g).flatten).length = 2 * xs.length := by
  intro xs
  induction xs with
  | nil => simp
  | cons x xs ih =>
    simp only [List.map_cons, List.flatten_cons, List.length_append, h x, ih, List.length_cons]
    omega

/-- C7: with a nonempty key and N ≥ 1 uploaded files the handler runs the
pipeline once per file on the shared criteria string, producing exactly 2·N
model calls overall; each document contributes exactly its own extraction
call and verification call, computed from that document's file alone (so the
per-document fields carry no state from other documents), and every
document's final state holds the same criteria. -/
theorem batch_two_calls_per_document (ch : Char) (key : List Char) (f : PDFFile)
    (fs : List PDFFile) (criteria : List Char) (llm : List Char → List Char) :
    runButton (ch :: key) (f :: fs) criteria llm
        = (UIOutcome.ran ((f :: fs).map (fun fl => (process_document llm fl criteria).1)),
           ((f :: fs).map (fun fl => (process_document llm fl criteria).2)).flatten)
      ∧ (((f :: fs).map (fun fl => (process_document llm fl criteria).2)).flatten).length
          = 2 * (f :: fs).length
      ∧ (∀ fl : PDFFile, (process_document llm fl criteria).2
            = [filterPayload criteria (clean_text (extract_text_from_pdf fl)),
               monitorPayload criteria
                 (llm (filterPayload criteria (clean_text (extract_text_from_pdf fl))))
                 (clean_text (extract_text_from_pdf fl))])
      ∧ (∀ fl : PDFFile, (process_document llm fl criteria).1.screening_criteria = criteria) := by
  refine ⟨?_, ?_, fun _ => rfl, fun _ => rfl⟩
  · simp [runButton, List.map_map, Function.comp_def]
  · exact flatten_len_two (fun fl => (process_document llm fl criteria).2) (fun _ => rfl) (f :: fs)

/-- C10: a readable PDF none of whose pages yields any text (including a
zero-page PDF) extracts to the empty string rather than an error message, and
the pipeline still runs on it: the cleaned raw content is empty and both
model calls are still made. -/
theorem extractor_empty_pages (name criteria : List Char) (pages : List (List Char))
    (llm : List Char → List Char) (h : ∀ p ∈ pages, p = []) :
    extract_text_from_pdf ⟨name, .ok pages⟩ = []
      ∧ (process_document llm ⟨name, .ok pages⟩ criteria).1.raw_content = []
      ∧ (process_document llm ⟨name, .ok pages⟩ criteria).2.length = 2 := by
  have hfilter : pages.filter (fun p => !p.isEmpty) = [] := by
    rw [List.filter_eq_nil_iff]
    intro p hp
    simp [h p hp]
  have hext : extract_text_from_pdf ⟨name, .ok pages⟩ = [] := by
    have he := extract_fold pages []
    simpa [extract_text_from_pdf, hfilter] using he
  refine ⟨hext, ?_, rfl⟩
  have hstate : (process_document llm ⟨name, .ok pages⟩ criteria).1.raw_content
      = clean_text (extract_text_from_pdf ⟨name, .ok pages⟩) := rfl
  rw [hstate, hext]
  rfl

/-- Witness for `extractor_empty_pages` at a concrete two-page all-empty PDF. -/
theorem extractor_empty_pages_witness :
    extract_text_from_pdf ⟨[], .ok [[], []]⟩ = []
      ∧ (process_document (fun _ => []) ⟨[], .ok [[], []]⟩ []).1.raw_content = []
      ∧ (process_document (fun _ => []) ⟨[], .ok [[], []]⟩ []).2.length = 2 :=
  extractor_empty_pages [] [] [[], []] (fun _ => []) (by decide)

end DrugPaper
